import Mathlib

/-!
# Cluster capability sets: `pkg/capability/capability.go`

A shallow embedding of the two functions of the package, `SetCapabilities`
and `GetImplicitlyEnabledCapabilities`, and the properties of the sets they
compute.

Conventions of the embedding:

* a Go `sets.Set[T]` is a `map[T]struct{}`: it is either the nil map or a
  finite set of keys, so it is embedded as `sets.Set.nil` or
  `sets.Set.mk m` with `m : Finset _`;
* a Go slice is either nil or a finite sequence: `Option (List _)`;
* a Go pointer is `Option` of the value it points to;
* a Go run-time panic (nil dereference, write to a nil map) is the `none`
  result of a function that returns `Option`.
-/

set_option autoImplicit false

namespace capability

/-! ## Types declared by `github.com/openshift/api/config/v1` -/

/-- Modelled from the spec: the type `configv1.ClusterVersionCapability` is declared in
`openshift/api`, not in this repository; it is a Go string type, a comparable identifier that
names one optional cluster feature. -/
abbrev ClusterVersionCapability := String

/-- Modelled from the spec: the type `configv1.ClusterVersionCapabilitySet` is declared in
`openshift/api`, not in this repository; it is a Go string type, the "set-name key" of the
catalog. -/
abbrev ClusterVersionCapabilitySet := String

/-- A Go slice `[]configv1.ClusterVersionCapability`: `none` is the nil slice. -/
abbrev Slice := Option (List ClusterVersionCapability)

/-- The elements a `range` over the slice visits (none for the nil slice). -/
def Slice.elems (s : Slice) : List ClusterVersionCapability :=
  match s with
  | none => []
  | some l => l

/-- Modelled from the spec: the struct `configv1.ClusterVersionCapabilitiesSpec` is declared in
`openshift/api`, not in this repository; these are the two fields the code reads, the baseline
"key chosen from catalog set-names" and the "additional list of explicitly requested
capabilities". -/
structure ClusterVersionCapabilitiesSpec where
  BaselineCapabilitySet : ClusterVersionCapabilitySet
  AdditionalEnabledCapabilities : Slice
deriving DecidableEq

/-- Modelled from the spec: the struct `configv1.ClusterVersionSpec` is declared in
`openshift/api`, not in this repository; the code reads its field `Capabilities`, a pointer that
may be nil. -/
structure ClusterVersionSpec where
  Capabilities : Option ClusterVersionCapabilitiesSpec
deriving DecidableEq

/-- Modelled from the spec: the struct `configv1.ClusterVersion` is declared in `openshift/api`,
not in this repository; the code reads its field `Spec`. -/
structure ClusterVersion where
  Spec : ClusterVersionSpec
deriving DecidableEq

/-- Modelled from the spec: the package variable `configv1.ClusterVersionCapabilitySets` is
declared in `openshift/api`, not in this repository: the "catalog mapping a set-name key to its
member capabilities", a Go `map[ClusterVersionCapabilitySet][]ClusterVersionCapability`. It is a
parameter of `SetCapabilities` here, given as its list of entries (a Go map holds each key
once). -/
abbrev Catalog := List (ClusterVersionCapabilitySet × Slice)

/-- The Go map read `catalog[key]`: the value of the entry with that key, and the zero value of
the slice type, the nil slice, when the key is absent. -/
def Catalog.index (catalog : Catalog) (key : ClusterVersionCapabilitySet) : Slice :=
  match catalog with
  | [] => none
  | (k, v) :: rest => if k = key then v else Catalog.index rest key

/-! ## The part of `k8s.io/apimachinery/pkg/util/sets` the package calls -/

/-- Modelled from the spec: the generic type `sets.Set[T]` (a `map[T]struct{}`) is declared in
`k8s.io/apimachinery`, not in this repository; here at `T = configv1.ClusterVersionCapability`.
`nil` is the nil map, which the spec's "nil/absent" refers to; `mk m` is a present map with key
set `m`. -/
inductive sets.Set where
  | nil : sets.Set
  | mk (m : Finset ClusterVersionCapability) : sets.Set
deriving DecidableEq

namespace sets.Set

/-- The keys of the map; the nil map has none ("a nil set counting as empty"). -/
def members (s : sets.Set) : Finset ClusterVersionCapability :=
  match s with
  | nil => ∅
  | mk m => m

/-- The Go test `s == nil`. -/
def isNil (s : sets.Set) : Bool :=
  match s with
  | nil => true
  | mk _ => false

/-- Modelled from the spec: `sets.New(items...)`, of `k8s.io/apimachinery`, makes a fresh map
and inserts the items; the result is never nil. -/
def New (items : List ClusterVersionCapability) : sets.Set :=
  mk items.toFinset

/-- Modelled from the spec: `s.Has(item)`, of `k8s.io/apimachinery`, a map lookup; reading the
nil map finds nothing. -/
def Has (s : sets.Set) (item : ClusterVersionCapability) : Bool :=
  decide (item ∈ s.members)

/-- Modelled from the spec: `s.Insert(items...)`, of `k8s.io/apimachinery`, stores each item as
a key of the receiver. Storing into the nil map panics (`none`); with no items nothing is stored
and the receiver is returned as it is. -/
def Insert (s : sets.Set) (items : List ClusterVersionCapability) : Option sets.Set :=
  match s, items with
  | s, [] => some s
  | nil, _ :: _ => none
  | mk m, items => some (mk (m ∪ items.toFinset))

/-- Modelled from the spec: `s1.Difference(s2)`, of `k8s.io/apimachinery`: a fresh set holding
the keys of `s1` that `s2` does not have ("set difference"); the result is never nil, also when
the receiver is. -/
def Difference (s1 s2 : sets.Set) : sets.Set :=
  mk (s1.members.filter (fun key => !s2.Has key))

end sets.Set

/-! ## `capability.go` -/

/-- ClusterCapabilities represents various types of ClusterVersionCapabilities. -/
structure ClusterCapabilities where
  Known : sets.Set
  Enabled : sets.Set
  ImplicitlyEnabled : sets.Set
deriving DecidableEq

/-- GetImplicitlyEnabledCapabilities returns the capabilities from a set of capabilities that
are not (even implicitly) enabled in ClusterCapabilities. -/
def GetImplicitlyEnabledCapabilities (capabilities enabledCapabilities : sets.Set)
    (clusterCapabilities : ClusterCapabilities) : sets.Set :=
  if capabilities.isNil then
    sets.Set.nil
  else
    let caps := ((capabilities.Difference enabledCapabilities).Difference
      clusterCapabilities.Enabled).Difference clusterCapabilities.ImplicitlyEnabled
    caps

/-- The loop `for _, s := range configv1.ClusterVersionCapabilitySets` of `SetCapabilities`,
inserting the members of each catalog entry into the set `known`. -/
def insertAll (known : sets.Set) (entries : Catalog) : Option sets.Set :=
  match entries with
  | [] => some known
  | (_, s) :: rest =>
    match known.Insert s.elems with
    | none => none
    | some known1 => insertAll known1 rest

/-- SetCapabilities populates a ClusterCapabilities object from the ClusterVersion capabilities
spec, and ensures that each capability in `others` is still enabled: if not enabled then
enabled implicitly. The two values of package `configv1` the function reads, the catalog
`ClusterVersionCapabilitySets` and the key `ClusterVersionCapabilitySetCurrent`, are its first
two arguments; `config` is a pointer, and `none` as result is a panic. -/
def SetCapabilities (ClusterVersionCapabilitySets : Catalog)
    (ClusterVersionCapabilitySetCurrent : ClusterVersionCapabilitySet)
    (config : Option ClusterVersion) (others : sets.Set) : Option ClusterCapabilities :=
  match insertAll (sets.Set.New []) ClusterVersionCapabilitySets with
  | none => none
  | some known =>
    match config with
    | none => none
    | some config =>
      let key :=
        match config.Spec.Capabilities with
        | some spec =>
          if spec.BaselineCapabilitySet ≠ "" then spec.BaselineCapabilitySet
          else ClusterVersionCapabilitySetCurrent
        | none => ClusterVersionCapabilitySetCurrent
      let enabled := sets.Set.New (ClusterVersionCapabilitySets.index key).elems
      let enabled1 :=
        match config.Spec.Capabilities with
        | some spec => enabled.Insert spec.AdditionalEnabledCapabilities.elems
        | none => some enabled
      match enabled1 with
      | none => none
      | some enabled2 =>
        some
          { Known := known
            Enabled := enabled2
            ImplicitlyEnabled := others.Difference enabled2 }

/-! ## Fixtures of the package tests and of the specification scenarios -/

/-- The catalog of the specification scenarios: `None` has no members, `v4.11` has two. -/
def scenarioCatalog : Catalog :=
  [("None", some []), ("v4.11", some ["baremetal", "marketplace"]),
   ("vCurrent", some ["baremetal", "marketplace", "Console"])]

/-- The catalog the expectations of `TestSetCapabilities` describe for the `v4.11` baseline. -/
def testCatalog : Catalog :=
  [("None", some []),
   ("v4.11", some ["baremetal", "marketplace", "openshift-samples", "MachineAPI"]),
   ("vCurrent", some ["baremetal", "marketplace", "openshift-samples", "MachineAPI",
      "Console", "Insights", "Storage"])]

/-- A config whose `Spec.Capabilities` is present, with the given key and additional list. -/
def configWith (key : ClusterVersionCapabilitySet) (additional : Slice) : ClusterVersion :=
  ⟨⟨some ⟨key, additional⟩⟩⟩

/-- The config `&configv1.ClusterVersion{}` of the test "capabilities nil". -/
def configNil : ClusterVersion :=
  ⟨⟨none⟩⟩

/-! ## Notions the properties are stated with -/

/-- The union of the member lists of all catalog entries. -/
def Catalog.allMembers (catalog : Catalog) : Finset ClusterVersionCapability :=
  match catalog with
  | [] => ∅
  | (_, s) :: rest => s.elems.toFinset ∪ Catalog.allMembers rest

/-- The additional capabilities a config names: the elements of
`Spec.Capabilities.AdditionalEnabledCapabilities`, and none when `Spec.Capabilities` is nil. -/
def ClusterVersion.additional (config : ClusterVersion) : List ClusterVersionCapability :=
  match config.Spec.Capabilities with
  | some spec => spec.AdditionalEnabledCapabilities.elems
  | none => []

/-- Modelled from the spec: `s1.Union(s2)`, of `k8s.io/apimachinery`: a fresh set holding the
keys of both sets; the package does not call it, it stands for "`ImplicitlyEnabled` replaced by
`ImplicitlyEnabled ∪ g`". -/
def sets.Set.Union (s1 s2 : sets.Set) : sets.Set :=
  sets.Set.mk (s1.members ∪ s2.members)

/-- The four classes of the specification for a capability `c` in a state `r`, in the order
unknown (`c ∉ Known`), explicitly enabled (`c ∈ Enabled`), implicitly enabled
(`c ∈ ImplicitlyEnabled`), disabled (`c ∈ Known`, in neither of the two). -/
def classification (r : ClusterCapabilities) (c : ClusterVersionCapability) : List Bool :=
  [!r.Known.Has c, r.Enabled.Has c, r.ImplicitlyEnabled.Has c,
   r.Known.Has c && !r.Enabled.Has c && !r.ImplicitlyEnabled.Has c]

/-- The four classes with "unknown" narrowed to the capabilities that are not enabled in
either way: unknown and not enabled, explicitly enabled, implicitly enabled, disabled. -/
def classificationNarrow (r : ClusterCapabilities) (c : ClusterVersionCapability) : List Bool :=
  [!r.Known.Has c && !r.Enabled.Has c && !r.ImplicitlyEnabled.Has c, r.Enabled.Has c,
   r.ImplicitlyEnabled.Has c,
   r.Known.Has c && !r.Enabled.Has c && !r.ImplicitlyEnabled.Has c]

/-! ## The same code over a memory of map objects and slices

A Go `sets.Set` value is a reference to a map object, and `Insert` writes to the object of its
receiver; a slice is a reference to a backing array, and the catalog is a package variable.
To state which objects a call writes, the two functions are embedded a second time over an
explicit memory that holds the map objects, the backing arrays of the slices and the catalog;
every operation takes the memory and returns the memory after it. -/

/-- The store of map objects: the key set of the `sets.Set` map at each allocated address, in
the order of allocation. -/
abbrev Store := List (Finset ClusterVersionCapability)

/-- A `sets.Set` as Go passes it, a reference to a map object: nil, or an address. -/
abbrev Ref := Option Nat

/-- The set a reference stands for in a store. -/
def Store.value (st : Store) (s : Ref) : sets.Set :=
  match s with
  | none => sets.Set.nil
  | some a => sets.Set.mk (st.getD a ∅)

/-- A reference is well-formed in a store when it is nil or the address of an allocated map. -/
def Store.allocated (st : Store) (s : Ref) : Bool :=
  match s with
  | none => true
  | some a => decide (a < st.length)

/-- Over the store, `sets.New(items...)` allocates a map object with the items as keys. -/
def Store.New (st : Store) (items : List ClusterVersionCapability) : Ref × Store :=
  (some st.length, st ++ [items.toFinset])

/-- Over the store, `s.Insert(items...)` writes the items into the map object of the receiver;
a write through the nil reference panics (`none`), and with no items nothing is written. -/
def Store.Insert (st : Store) (s : Ref) (items : List ClusterVersionCapability) :
    Option Store :=
  match s, items with
  | _, [] => some st
  | none, _ :: _ => none
  | some a, items => some (st.set a (st.getD a ∅ ∪ items.toFinset))

/-- Over the store, `s1.Difference(s2)` reads the two maps and allocates a map object with the
keys of `s1` that `s2` does not have. -/
def Store.Difference (st : Store) (s1 s2 : Ref) : Ref × Store :=
  (some st.length,
    st ++ [(st.value s1).members.filter (fun key => !(st.value s2).Has key)])

/-- The struct `ClusterCapabilities` with its three sets as references. -/
structure ClusterCapabilitiesRefs where
  Known : Ref
  Enabled : Ref
  ImplicitlyEnabled : Ref
deriving DecidableEq

/-- The `ClusterCapabilities` value three references stand for in a store. -/
def Store.state (st : Store) (r : ClusterCapabilitiesRefs) : ClusterCapabilities :=
  { Known := st.value r.Known
    Enabled := st.value r.Enabled
    ImplicitlyEnabled := st.value r.ImplicitlyEnabled }

/-- A slice as Go passes it, a reference to its backing array: nil, or an address. -/
abbrev SliceRef := Option Nat

/-- The memory of a run: the `sets.Set` map objects, the backing arrays of the slices, and the
package variable `configv1.ClusterVersionCapabilitySets`, a map from a key to a slice. -/
structure Memory where
  maps : Store
  arrays : List (List ClusterVersionCapability)
  ClusterVersionCapabilitySets : List (ClusterVersionCapabilitySet × SliceRef)
deriving DecidableEq

/-- The slice a reference stands for, given the backing arrays. -/
def sliceAt (arrays : List (List ClusterVersionCapability)) (s : SliceRef) : Slice :=
  match s with
  | none => none
  | some a => some (arrays.getD a [])

/-- The slice a reference stands for in a memory. -/
def Memory.slice (mem : Memory) (s : SliceRef) : Slice :=
  sliceAt mem.arrays s

/-- The entries of a catalog with each slice read from the backing arrays. -/
def catalogAt (arrays : List (List ClusterVersionCapability))
    (entries : List (ClusterVersionCapabilitySet × SliceRef)) : Catalog :=
  match entries with
  | [] => []
  | (k, s) :: rest => (k, sliceAt arrays s) :: catalogAt arrays rest

/-- The catalog held in a memory: every key with its member list. -/
def Memory.catalog (mem : Memory) : Catalog :=
  catalogAt mem.arrays mem.ClusterVersionCapabilitySets

/-- The Go map read `catalog[key]` on the catalog in memory: the slice of the entry with that
key, and the nil slice when the key is absent. -/
def indexRef (entries : List (ClusterVersionCapabilitySet × SliceRef))
    (key : ClusterVersionCapabilitySet) : SliceRef :=
  match entries with
  | [] => none
  | (k, v) :: rest => if k = key then v else indexRef rest key

/-- The struct `configv1.ClusterVersionCapabilitiesSpec` with its list as a slice reference. -/
structure ClusterVersionCapabilitiesSpecRefs where
  BaselineCapabilitySet : ClusterVersionCapabilitySet
  AdditionalEnabledCapabilities : SliceRef
deriving DecidableEq

/-- The struct `configv1.ClusterVersionSpec` over the memory. -/
structure ClusterVersionSpecRefs where
  Capabilities : Option ClusterVersionCapabilitiesSpecRefs
deriving DecidableEq

/-- The struct `configv1.ClusterVersion` over the memory. -/
structure ClusterVersionRefs where
  Spec : ClusterVersionSpecRefs
deriving DecidableEq

/-- The config a memory holds for a config over the memory: the additional list is read from
its backing array. -/
def Memory.config (mem : Memory) (config : ClusterVersionRefs) : ClusterVersion :=
  match config.Spec.Capabilities with
  | none => ⟨⟨none⟩⟩
  | some spec =>
    ⟨⟨some ⟨spec.BaselineCapabilitySet, mem.slice spec.AdditionalEnabledCapabilities⟩⟩⟩

/-- Over the memory, `sets.New(items...)` ranges over the slice and allocates a map object with
its elements as keys; arrays and catalog are not written. -/
def Memory.New (mem : Memory) (items : SliceRef) : Ref × Memory :=
  let (s, maps) := mem.maps.New (mem.slice items).elems
  (s, { maps := maps, arrays := mem.arrays,
        ClusterVersionCapabilitySets := mem.ClusterVersionCapabilitySets })

/-- Over the memory, `s.Insert(items...)` ranges over the slice and writes its elements into
the map object of the receiver; arrays and catalog are not written. -/
def Memory.Insert (mem : Memory) (s : Ref) (items : SliceRef) : Option Memory :=
  match mem.maps.Insert s (mem.slice items).elems with
  | none => none
  | some maps =>
    some { maps := maps, arrays := mem.arrays,
           ClusterVersionCapabilitySets := mem.ClusterVersionCapabilitySets }

/-- Over the memory, `s1.Difference(s2)` reads the two maps and allocates the map object of the
result; arrays and catalog are not written. -/
def Memory.Difference (mem : Memory) (s1 s2 : Ref) : Ref × Memory :=
  let (s, maps) := mem.maps.Difference s1 s2
  (s, { maps := maps, arrays := mem.arrays,
        ClusterVersionCapabilitySets := mem.ClusterVersionCapabilitySets })

/-- The function `GetImplicitlyEnabledCapabilities` over the memory: the result reference and
the memory after the call. -/
def GetImplicitlyEnabledCapabilitiesInMemory (capabilities enabledCapabilities : Ref)
    (clusterCapabilities : ClusterCapabilitiesRefs) (mem : Memory) : Ref × Memory :=
  match capabilities with
  | none => (none, mem)
  | some _ =>
    let (d1, mem1) := mem.Difference capabilities enabledCapabilities
    let (d2, mem2) := mem1.Difference d1 clusterCapabilities.Enabled
    let (caps, mem3) := mem2.Difference d2 clusterCapabilities.ImplicitlyEnabled
    (caps, mem3)

/-- The loop of `SetCapabilities` over the entries of the catalog, with `known` a reference and
each entry a slice reference. -/
def insertAllInMemory (mem : Memory) (known : Ref)
    (entries : List (ClusterVersionCapabilitySet × SliceRef)) : Option Memory :=
  match entries with
  | [] => some mem
  | (_, s) :: rest =>
    match mem.Insert known s with
    | none => none
    | some mem1 => insertAllInMemory mem1 known rest

/-- The function `SetCapabilities` over the memory: the three result references and the memory
after the call, and `none` for a panic. The catalog is read from the memory. -/
def SetCapabilitiesInMemory (ClusterVersionCapabilitySetCurrent : ClusterVersionCapabilitySet)
    (config : Option ClusterVersionRefs) (others : Ref) (mem : Memory) :
    Option (ClusterCapabilitiesRefs × Memory) :=
  let (known, mem1) := mem.New none
  match insertAllInMemory mem1 known mem1.ClusterVersionCapabilitySets with
  | none => none
  | some mem2 =>
    match config with
    | none => none
    | some config =>
      let key :=
        match config.Spec.Capabilities with
        | some spec =>
          if spec.BaselineCapabilitySet ≠ "" then spec.BaselineCapabilitySet
          else ClusterVersionCapabilitySetCurrent
        | none => ClusterVersionCapabilitySetCurrent
      let (enabled, mem3) := mem2.New (indexRef mem2.ClusterVersionCapabilitySets key)
      let mem4 :=
        match config.Spec.Capabilities with
        | some spec => mem3.Insert enabled spec.AdditionalEnabledCapabilities
        | none => some mem3
      match mem4 with
      | none => none
      | some mem5 =>
        let (implicitlyEnabled, mem6) := mem5.Difference others enabled
        some
          ({ Known := known, Enabled := enabled, ImplicitlyEnabled := implicitlyEnabled }, mem6)

/-- The memory of the scenario of `TestSetCapabilities`: the map objects
{MachineAPI, cap1, cap-implicitly} and {cap1}, the arrays of the three catalog entries and of
the additional list cap1, cap2, cap3, and the catalog. -/
def testMemory : Memory :=
  { maps := [["MachineAPI", "cap1", "cap-implicitly"].toFinset, ["cap1"].toFinset]
    arrays := [[], ["baremetal", "marketplace", "openshift-samples", "MachineAPI"],
      ["baremetal", "marketplace", "openshift-samples", "MachineAPI", "Console", "Insights",
        "Storage"],
      ["cap1", "cap2", "cap3"]]
    ClusterVersionCapabilitySets := [("None", some 0), ("v4.11", some 1), ("vCurrent", some 2)] }

/-! ## Facts about the set operations -/

namespace sets.Set

theorem has_iff_mem (s : sets.Set) (c : ClusterVersionCapability) :
    s.Has c = true ↔ c ∈ s.members := by
  simp [Has]

theorem has_false_iff (s : sets.Set) (c : ClusterVersionCapability) :
    s.Has c = false ↔ c ∉ s.members := by
  simp [Has]

theorem members_mk (m : Finset ClusterVersionCapability) : (mk m).members = m := rfl

theorem members_nil : nil.members = ∅ := rfl

theorem members_New (items : List ClusterVersionCapability) :
    (New items).members = items.toFinset := rfl

theorem difference_eq (s1 s2 : sets.Set) :
    s1.Difference s2 = mk (s1.members \ s2.members) := by
  unfold Difference
  congr 1
  ext c
  simp [Has]

theorem members_Difference (s1 s2 : sets.Set) :
    (s1.Difference s2).members = s1.members \ s2.members := by
  rw [difference_eq]
  rfl

theorem insert_mk (m : Finset ClusterVersionCapability) (items : List ClusterVersionCapability) :
    (mk m).Insert items = some (mk (m ∪ items.toFinset)) := by
  cases items with
  | nil => simp [Insert]
  | cons a l => simp [Insert]

theorem isNil_eq_true_iff (s : sets.Set) : s.isNil = true ↔ s = nil := by
  cases s <;> simp [isNil]

end sets.Set

theorem Catalog.mem_allMembers (catalog : Catalog) (c : ClusterVersionCapability) :
    c ∈ catalog.allMembers ↔ ∃ e, e ∈ catalog ∧ c ∈ e.2.elems := by
  induction catalog with
  | nil => simp [Catalog.allMembers]
  | cons e rest ih =>
    obtain ⟨k, s⟩ := e
    simp [Catalog.allMembers, ih]

theorem Catalog.index_of_not_key (catalog : Catalog) (key : ClusterVersionCapabilitySet)
    (h : key ∉ catalog.map Prod.fst) : catalog.index key = none := by
  induction catalog with
  | nil => rfl
  | cons e rest ih =>
    obtain ⟨k, s⟩ := e
    simp only [List.map_cons, List.mem_cons, not_or] at h
    have hk : ¬ k = key := fun hkk => h.1 hkk.symm
    simp [Catalog.index, hk, ih h.2]

theorem insertAll_mk (m : Finset ClusterVersionCapability) (entries : Catalog) :
    insertAll (sets.Set.mk m) entries = some (sets.Set.mk (m ∪ entries.allMembers)) := by
  induction entries generalizing m with
  | nil => simp [insertAll, Catalog.allMembers]
  | cons e rest ih =>
    obtain ⟨k, s⟩ := e
    simp [insertAll, sets.Set.insert_mk, ih, Catalog.allMembers, Finset.union_assoc]

theorem insertAll_New (entries : Catalog) :
    insertAll (sets.Set.New []) entries = some (sets.Set.mk entries.allMembers) := by
  simp [sets.Set.New, insertAll_mk]

/-- The key `SetCapabilities` looks up for a config whose `Spec.Capabilities` is present. -/
theorem SetCapabilities_present (catalog : Catalog) (current key : ClusterVersionCapabilitySet)
    (additional : Slice) (others : sets.Set) :
    SetCapabilities catalog current (some (configWith key additional)) others =
      some
        { Known := sets.Set.mk catalog.allMembers
          Enabled := sets.Set.mk
            ((catalog.index (if key ≠ "" then key else current)).elems.toFinset ∪
              additional.elems.toFinset)
          ImplicitlyEnabled := others.Difference (sets.Set.mk
            ((catalog.index (if key ≠ "" then key else current)).elems.toFinset ∪
              additional.elems.toFinset)) } := by
  simp [SetCapabilities, insertAll_mk, configWith, sets.Set.New, sets.Set.insert_mk]

theorem SetCapabilities_absent (catalog : Catalog) (current : ClusterVersionCapabilitySet)
    (others : sets.Set) :
    SetCapabilities catalog current (some configNil) others =
      some
        { Known := sets.Set.mk catalog.allMembers
          Enabled := sets.Set.mk (catalog.index current).elems.toFinset
          ImplicitlyEnabled := others.Difference
            (sets.Set.mk (catalog.index current).elems.toFinset) } := by
  simp [SetCapabilities, insertAll_mk, configNil, sets.Set.New]

theorem config_cases (config : ClusterVersion) :
    config = configNil ∨ ∃ key additional, config = configWith key additional := by
  obtain ⟨⟨caps⟩⟩ := config
  cases caps with
  | none => exact Or.inl rfl
  | some spec =>
    obtain ⟨key, additional⟩ := spec
    exact Or.inr ⟨key, additional, rfl⟩

/-- For a non-nil config the function returns, and `ImplicitlyEnabled` is the difference of
`others` and the returned `Enabled`, which is a present set. -/
theorem SetCapabilities_some (catalog : Catalog) (current : ClusterVersionCapabilitySet)
    (config : ClusterVersion) (others : sets.Set) :
    ∃ en, SetCapabilities catalog current (some config) others =
      some
        { Known := sets.Set.mk catalog.allMembers
          Enabled := sets.Set.mk en
          ImplicitlyEnabled := others.Difference (sets.Set.mk en) } := by
  rcases config_cases config with h | ⟨key, additional, h⟩
  · subst h
    exact ⟨_, SetCapabilities_absent catalog current others⟩
  · subst h
    exact ⟨_, SetCapabilities_present catalog current key additional others⟩

/-! ## `GetImplicitlyEnabledCapabilities` -/

theorem GetImplicitlyEnabledCapabilities_mk (A : Finset ClusterVersionCapability)
    (enabledCapabilities : sets.Set) (clusterCapabilities : ClusterCapabilities) :
    GetImplicitlyEnabledCapabilities (sets.Set.mk A) enabledCapabilities clusterCapabilities =
      sets.Set.mk (((A \ enabledCapabilities.members) \ clusterCapabilities.Enabled.members) \
        clusterCapabilities.ImplicitlyEnabled.members) := by
  simp [GetImplicitlyEnabledCapabilities, sets.Set.isNil, sets.Set.difference_eq,
    sets.Set.members_mk]

/-- Claim C1: for a non-nil set `capabilities` (a present map `mk A`) the function returns the
present set `A − enabledCapabilities − Enabled − ImplicitlyEnabled`, nil subtrahends counting as
empty: a capability is in the result exactly when it is in `capabilities` and in none of the
three other sets; with an empty (or nil) `enabledCapabilities` the result is `A − E − I`. -/
theorem GetImplicitlyEnabledCapabilities_eq_difference (A : Finset ClusterVersionCapability)
    (enabledCapabilities : sets.Set) (clusterCapabilities : ClusterCapabilities) :
    GetImplicitlyEnabledCapabilities (sets.Set.mk A) enabledCapabilities clusterCapabilities =
        sets.Set.mk (((A \ enabledCapabilities.members) \ clusterCapabilities.Enabled.members) \
          clusterCapabilities.ImplicitlyEnabled.members) ∧
      (∀ c : ClusterVersionCapability,
        (GetImplicitlyEnabledCapabilities (sets.Set.mk A) enabledCapabilities
            clusterCapabilities).Has c = true ↔
          ((sets.Set.mk A).Has c = true ∧ enabledCapabilities.Has c = false ∧
            clusterCapabilities.Enabled.Has c = false ∧
            clusterCapabilities.ImplicitlyEnabled.Has c = false)) ∧
      GetImplicitlyEnabledCapabilities (sets.Set.mk A) (sets.Set.mk ∅) clusterCapabilities =
        sets.Set.mk ((A \ clusterCapabilities.Enabled.members) \
          clusterCapabilities.ImplicitlyEnabled.members) ∧
      GetImplicitlyEnabledCapabilities (sets.Set.mk A) sets.Set.nil clusterCapabilities =
        sets.Set.mk ((A \ clusterCapabilities.Enabled.members) \
          clusterCapabilities.ImplicitlyEnabled.members) := by
  refine ⟨GetImplicitlyEnabledCapabilities_mk A _ _, ?_, ?_, ?_⟩
  · intro c
    rw [GetImplicitlyEnabledCapabilities_mk]
    simp only [sets.Set.has_iff_mem, sets.Set.has_false_iff, sets.Set.members_mk,
      Finset.mem_sdiff]
    tauto
  · rw [GetImplicitlyEnabledCapabilities_mk]
    simp [sets.Set.members_mk]
  · rw [GetImplicitlyEnabledCapabilities_mk]
    simp [sets.Set.members_nil]

/-- Claim C2: called with the nil set as `capabilities`, the function returns the nil set for
every `enabledCapabilities` and every `clusterCapabilities`: the result tests as nil and is not
the empty present set. -/
theorem GetImplicitlyEnabledCapabilities_nil (enabledCapabilities : sets.Set)
    (clusterCapabilities : ClusterCapabilities) :
    GetImplicitlyEnabledCapabilities sets.Set.nil enabledCapabilities clusterCapabilities =
        sets.Set.nil ∧
      (GetImplicitlyEnabledCapabilities sets.Set.nil enabledCapabilities
        clusterCapabilities).isNil = true ∧
      GetImplicitlyEnabledCapabilities sets.Set.nil enabledCapabilities clusterCapabilities ≠
        sets.Set.mk ∅ := by
  have h : GetImplicitlyEnabledCapabilities sets.Set.nil enabledCapabilities
      clusterCapabilities = sets.Set.nil := by
    simp [GetImplicitlyEnabledCapabilities, sets.Set.isNil]
  rw [h]
  exact ⟨rfl, rfl, by intro h2; cases h2⟩

/-- Claim C3: the three-way signal. The result is nil exactly when `capabilities` is nil. For a
present `capabilities` with key set `A` (the empty one included) the result is present; it is the
empty set exactly when every member of `A` is in
`enabledCapabilities ∪ Enabled ∪ ImplicitlyEnabled`, and it has a member exactly when some
member of `A` is in none of the three. -/
theorem GetImplicitlyEnabledCapabilities_three_way (capabilities : sets.Set)
    (A : Finset ClusterVersionCapability) (enabledCapabilities : sets.Set)
    (clusterCapabilities : ClusterCapabilities) :
    ((GetImplicitlyEnabledCapabilities capabilities enabledCapabilities
        clusterCapabilities).isNil = true ↔ capabilities.isNil = true) ∧
      (GetImplicitlyEnabledCapabilities (sets.Set.mk A) enabledCapabilities
        clusterCapabilities).isNil = false ∧
      (GetImplicitlyEnabledCapabilities (sets.Set.mk A) enabledCapabilities
          clusterCapabilities = sets.Set.mk ∅ ↔
        A ⊆ enabledCapabilities.members ∪ clusterCapabilities.Enabled.members ∪
          clusterCapabilities.ImplicitlyEnabled.members) ∧
      ((GetImplicitlyEnabledCapabilities (sets.Set.mk A) enabledCapabilities
          clusterCapabilities).members.Nonempty ↔
        ¬ A ⊆ enabledCapabilities.members ∪ clusterCapabilities.Enabled.members ∪
          clusterCapabilities.ImplicitlyEnabled.members) := by
  have hsub : ((A \ enabledCapabilities.members) \ clusterCapabilities.Enabled.members) \
        clusterCapabilities.ImplicitlyEnabled.members = ∅ ↔
      A ⊆ enabledCapabilities.members ∪ clusterCapabilities.Enabled.members ∪
        clusterCapabilities.ImplicitlyEnabled.members := by
    rw [sdiff_sdiff_left, sdiff_sdiff_left, Finset.sdiff_eq_empty_iff_subset,
      Finset.sup_eq_union, Finset.union_assoc]
  refine ⟨?_, ?_, ?_, ?_⟩
  · cases capabilities with
    | nil => simp [GetImplicitlyEnabledCapabilities, sets.Set.isNil]
    | mk m => simp [GetImplicitlyEnabledCapabilities_mk, sets.Set.isNil]
  · rw [GetImplicitlyEnabledCapabilities_mk]
    rfl
  · rw [GetImplicitlyEnabledCapabilities_mk, ← hsub]
    constructor
    · intro h
      injection h
    · intro h
      rw [h]
  · rw [GetImplicitlyEnabledCapabilities_mk, sets.Set.members_mk,
      Finset.nonempty_iff_ne_empty, ← hsub]

/-! ## `SetCapabilities`: the enabled set -/

/-- Claim C4: with a non-empty baseline key `k` in the config, `SetCapabilities` returns, and
`Enabled` is the present set of the members of `catalog[k]` together with the additional
capabilities (a list that may repeat entries and name capabilities of no catalog set): every
additional capability is in `Enabled`, and with a baseline of no members `Enabled` is the set of
the additional capabilities. -/
theorem SetCapabilities_enabled_eq_baseline_union_additional (catalog : Catalog)
    (current k : ClusterVersionCapabilitySet) (additional : Slice) (others : sets.Set)
    (hk : k ≠ "") :
    ∃ r, SetCapabilities catalog current (some (configWith k additional)) others = some r ∧
      r.Enabled = sets.Set.mk ((catalog.index k).elems.toFinset ∪ additional.elems.toFinset) ∧
      (∀ c : ClusterVersionCapability,
        r.Enabled.Has c = true ↔ (c ∈ (catalog.index k).elems ∨ c ∈ additional.elems)) ∧
      (∀ c : ClusterVersionCapability, c ∈ additional.elems → r.Enabled.Has c = true) ∧
      ((catalog.index k).elems = [] → r.Enabled = sets.Set.New additional.elems) := by
  refine ⟨_, SetCapabilities_present catalog current k additional others, ?_, ?_, ?_, ?_⟩
  · simp [hk]
  · intro c
    simp [hk, sets.Set.has_iff_mem, sets.Set.members_mk]
  · intro c hc
    simp [hk, sets.Set.has_iff_mem, sets.Set.members_mk, hc]
  · intro hempty
    simp [hk, hempty, sets.Set.New]

/-- The scenarios of claim C4: baseline `v4.11` = {baremetal, marketplace} with additional
{capX} gives {baremetal, marketplace, capX}, where capX is enabled and not known; the baseline
`None` gives the additional capabilities alone. -/
theorem SetCapabilities_enabled_eq_baseline_union_additional_witness :
    (("v4.11" : ClusterVersionCapabilitySet) ≠ "" ∧
      ∃ r, SetCapabilities scenarioCatalog "vCurrent"
          (some (configWith "v4.11" (some ["capX"]))) sets.Set.nil = some r ∧
        r.Enabled = sets.Set.New ["baremetal", "marketplace", "capX"] ∧
        r.Enabled.Has "capX" = true) ∧
      (("None" : ClusterVersionCapabilitySet) ≠ "" ∧
        ∃ r, SetCapabilities scenarioCatalog "vCurrent"
            (some (configWith "None" (some ["capX", "capY", "capX"]))) sets.Set.nil = some r ∧
          r.Enabled = sets.Set.New ["capX", "capY"]) ∧
      (SetCapabilities scenarioCatalog "vCurrent"
        (some (configWith "v4.11" (some ["capX"]))) sets.Set.nil).map
          (fun r => r.Known.Has "capX") = some false := by
  refine ⟨⟨by decide, ?_⟩, ⟨by decide, ?_⟩, by decide⟩
  · obtain ⟨r, hr, hen, -, hadd, -⟩ :=
      SetCapabilities_enabled_eq_baseline_union_additional scenarioCatalog "vCurrent" "v4.11"
        (some ["capX"]) sets.Set.nil (by decide)
    exact ⟨r, hr, hen.trans (by decide), hadd "capX" (by decide)⟩
  · obtain ⟨r, hr, hen, -⟩ :=
      SetCapabilities_enabled_eq_baseline_union_additional scenarioCatalog "vCurrent" "None"
        (some ["capX", "capY", "capX"]) sets.Set.nil (by decide)
    refine ⟨r, hr, hen.trans ?_⟩
    simp only [scenarioCatalog, Catalog.index, Slice.elems, sets.Set.New]
    congr 1
    ext c
    simp
    tauto

/-- Claim C5: a config that supplies no baseline key, `Spec.Capabilities` nil or present with
the empty `BaselineCapabilitySet`, is resolved with the key `ClusterVersionCapabilitySetCurrent`:
`Enabled` is the set of the members of `catalog[current]` and the additional capabilities (none
when `Spec.Capabilities` is nil), and the whole result equals that of the config that names the
current key with the same additional list. -/
theorem SetCapabilities_default_key (catalog : Catalog) (current : ClusterVersionCapabilitySet)
    (additional : Slice) (others : sets.Set) :
    (∃ r, SetCapabilities catalog current (some (configWith "" additional)) others = some r ∧
        r.Enabled = sets.Set.mk
          ((catalog.index current).elems.toFinset ∪ additional.elems.toFinset)) ∧
      (∃ r, SetCapabilities catalog current (some configNil) others = some r ∧
        r.Enabled = sets.Set.mk (catalog.index current).elems.toFinset) ∧
      SetCapabilities catalog current (some (configWith "" additional)) others =
        SetCapabilities catalog current (some (configWith current additional)) others ∧
      SetCapabilities catalog current (some configNil) others =
        SetCapabilities catalog current (some (configWith current none)) others ∧
      SetCapabilities catalog current (some configNil) others =
        SetCapabilities catalog current (some (configWith current (some []))) others := by
  refine ⟨⟨_, SetCapabilities_present catalog current "" additional others, by simp⟩,
    ⟨_, SetCapabilities_absent catalog current others, rfl⟩, ?_, ?_, ?_⟩
  · rw [SetCapabilities_present, SetCapabilities_present]
    simp
  · rw [SetCapabilities_present, SetCapabilities_absent]
    simp [Slice.elems]
  · rw [SetCapabilities_present, SetCapabilities_absent]
    simp [Slice.elems]

/-- Claim C6: a non-empty baseline key that is not a key of the catalog makes `SetCapabilities`
return with an empty baseline, not with the set of the current key: `Enabled` is exactly the set
of the additional capabilities, and the empty set when there are none. -/
theorem SetCapabilities_unknown_key (catalog : Catalog)
    (current k : ClusterVersionCapabilitySet) (additional : Slice) (others : sets.Set)
    (hk : k ≠ "") (hnot : k ∉ catalog.map Prod.fst) :
    ∃ r, SetCapabilities catalog current (some (configWith k additional)) others = some r ∧
      r.Enabled = sets.Set.New additional.elems ∧
      (∀ c : ClusterVersionCapability, r.Enabled.Has c = true ↔ c ∈ additional.elems) ∧
      (additional.elems = [] → r.Enabled = sets.Set.mk ∅) := by
  have hidx : catalog.index k = none := Catalog.index_of_not_key catalog k hnot
  have hnil : Slice.elems none = [] := rfl
  refine ⟨_, SetCapabilities_present catalog current k additional others, ?_, ?_, ?_⟩
  · simp [hk, hidx, hnil, sets.Set.New]
  · intro c
    simp [hk, hidx, hnil, sets.Set.has_iff_mem, sets.Set.members_mk]
  · intro hempty
    simp [hk, hidx, hempty, hnil]

/-- The scenario of claim C6: the key `v9.99` is in no entry of the catalog; without additional
capabilities `Enabled` is the empty present set although `catalog[vCurrent]` has members, and
with additional {capX} it is {capX}. -/
theorem SetCapabilities_unknown_key_witness :
    ("v9.99" : ClusterVersionCapabilitySet) ≠ "" ∧
      ("v9.99" : ClusterVersionCapabilitySet) ∉ scenarioCatalog.map Prod.fst ∧
      (scenarioCatalog.index "vCurrent").elems ≠ [] ∧
      (∃ r, SetCapabilities scenarioCatalog "vCurrent"
          (some (configWith "v9.99" none)) sets.Set.nil = some r ∧
        r.Enabled = sets.Set.mk ∅) ∧
      (∃ r, SetCapabilities scenarioCatalog "vCurrent"
          (some (configWith "v9.99" (some ["capX"]))) sets.Set.nil = some r ∧
        r.Enabled = sets.Set.New ["capX"]) := by
  refine ⟨by decide, by decide, by decide, ?_, ?_⟩
  · obtain ⟨r, hr, -, -, hempty⟩ :=
      SetCapabilities_unknown_key scenarioCatalog "vCurrent" "v9.99" none sets.Set.nil
        (by decide) (by decide)
    exact ⟨r, hr, hempty rfl⟩
  · obtain ⟨r, hr, hen, -⟩ :=
      SetCapabilities_unknown_key scenarioCatalog "vCurrent" "v9.99" (some ["capX"])
        sets.Set.nil (by decide) (by decide)
    exact ⟨r, hr, hen⟩

/-! ## `SetCapabilities`: the implicitly enabled set and the known set -/

/-- Claim C7: for every catalog, config and `others`, `SetCapabilities` returns and
`ImplicitlyEnabled` is `others − Enabled`, the members of `others` that the returned `Enabled`
does not have: a capability is implicitly enabled exactly when it is in `others` and not in
`Enabled`. -/
theorem SetCapabilities_implicitlyEnabled_eq (catalog : Catalog)
    (current : ClusterVersionCapabilitySet) (config : ClusterVersion) (others : sets.Set) :
    ∃ r, SetCapabilities catalog current (some config) others = some r ∧
      r.ImplicitlyEnabled = sets.Set.mk (others.members \ r.Enabled.members) ∧
      (∀ c : ClusterVersionCapability,
        r.ImplicitlyEnabled.Has c = true ↔ (others.Has c = true ∧ r.Enabled.Has c = false)) := by
  obtain ⟨en, hr⟩ := SetCapabilities_some catalog current config others
  refine ⟨_, hr, ?_, ?_⟩
  · exact sets.Set.difference_eq others (sets.Set.mk en)
  · intro c
    simp [sets.Set.has_iff_mem, sets.Set.has_false_iff, sets.Set.members_Difference,
      sets.Set.members_mk]

/-- The scenario of claim C7, from `TestSetCapabilities`: baseline `v4.11`, additional
{cap1, cap2, cap3} and others {MachineAPI, cap1, cap-implicitly} give
`ImplicitlyEnabled` = {cap-implicitly}, which is not `Enabled − others`. -/
theorem SetCapabilities_implicitlyEnabled_eq_witness :
    ∃ r, SetCapabilities testCatalog "vCurrent"
        (some (configWith "v4.11" (some ["cap1", "cap2", "cap3"])))
        (sets.Set.New ["MachineAPI", "cap1", "cap-implicitly"]) = some r ∧
      r.ImplicitlyEnabled = sets.Set.New ["cap-implicitly"] ∧
      r.ImplicitlyEnabled ≠ r.Enabled.Difference
        (sets.Set.New ["MachineAPI", "cap1", "cap-implicitly"]) := by
  obtain ⟨r, hr, himp, -⟩ :=
    SetCapabilities_implicitlyEnabled_eq testCatalog "vCurrent"
      (configWith "v4.11" (some ["cap1", "cap2", "cap3"]))
      (sets.Set.New ["MachineAPI", "cap1", "cap-implicitly"])
  have hval : SetCapabilities testCatalog "vCurrent"
      (some (configWith "v4.11" (some ["cap1", "cap2", "cap3"])))
      (sets.Set.New ["MachineAPI", "cap1", "cap-implicitly"]) =
      some
        { Known := sets.Set.New ["baremetal", "marketplace", "openshift-samples", "MachineAPI",
            "Console", "Insights", "Storage"]
          Enabled := sets.Set.New ["baremetal", "marketplace", "openshift-samples",
            "MachineAPI", "cap1", "cap2", "cap3"]
          ImplicitlyEnabled := sets.Set.New ["cap-implicitly"] } := by decide
  rw [hval] at hr
  cases hr
  exact ⟨_, hval, rfl, by decide⟩

/-- Claim C8: for every catalog, config and `others`, the `Enabled` and `ImplicitlyEnabled`
sets of the result of one `SetCapabilities` call have no member in common. -/
theorem SetCapabilities_enabled_disjoint_implicitlyEnabled (catalog : Catalog)
    (current : ClusterVersionCapabilitySet) (config : ClusterVersion) (others : sets.Set) :
    ∃ r, SetCapabilities catalog current (some config) others = some r ∧
      Disjoint r.Enabled.members r.ImplicitlyEnabled.members ∧
      (∀ c : ClusterVersionCapability,
        ¬ (r.Enabled.Has c = true ∧ r.ImplicitlyEnabled.Has c = true)) := by
  obtain ⟨en, hr⟩ := SetCapabilities_some catalog current config others
  refine ⟨_, hr, ?_, ?_⟩
  · simp only [sets.Set.members_Difference, sets.Set.members_mk]
    exact Finset.disjoint_sdiff
  · intro c
    simp only [sets.Set.has_iff_mem, sets.Set.members_Difference, sets.Set.members_mk,
      Finset.mem_sdiff]
    tauto

/-- Claim C9: every member of `others` is in `Enabled` or in `ImplicitlyEnabled` of the result
of `SetCapabilities`, so asking `GetImplicitlyEnabledCapabilities` about `others` against that
result, with no further enabled capabilities (the empty or the nil set), finds nothing: the
empty present set for a present `others`, and nil for the nil one. -/
theorem SetCapabilities_covers_others (catalog : Catalog)
    (current : ClusterVersionCapabilitySet) (config : ClusterVersion) (others : sets.Set) :
    ∃ r, SetCapabilities catalog current (some config) others = some r ∧
      others.members ⊆ r.Enabled.members ∪ r.ImplicitlyEnabled.members ∧
      (∀ c : ClusterVersionCapability,
        others.Has c = true → (r.Enabled.Has c = true ∨ r.ImplicitlyEnabled.Has c = true)) ∧
      GetImplicitlyEnabledCapabilities others (sets.Set.mk ∅) r =
        (if others.isNil then sets.Set.nil else sets.Set.mk ∅) ∧
      GetImplicitlyEnabledCapabilities others sets.Set.nil r =
        (if others.isNil then sets.Set.nil else sets.Set.mk ∅) := by
  obtain ⟨en, hr⟩ := SetCapabilities_some catalog current config others
  have hsub : others.members ⊆ en ∪ others.members \ en := by
    intro c hc
    by_cases hen : c ∈ en
    · exact Finset.mem_union_left _ hen
    · exact Finset.mem_union_right _ (Finset.mem_sdiff.mpr ⟨hc, hen⟩)
  have hempty : (others.members \ en) \ (others.members \ en) = ∅ := sdiff_self
  refine ⟨_, hr, ?_, ?_, ?_, ?_⟩
  · simpa only [sets.Set.members_Difference, sets.Set.members_mk] using hsub
  · intro c hO
    have hc := hsub ((sets.Set.has_iff_mem others c).mp hO)
    simp only [Finset.mem_union, Finset.mem_sdiff] at hc
    rcases hc with h | h
    · exact Or.inl ((sets.Set.has_iff_mem _ c).mpr h)
    · right
      rw [sets.Set.has_iff_mem, sets.Set.members_Difference]
      exact Finset.mem_sdiff.mpr h
  · cases others with
    | nil => simp [GetImplicitlyEnabledCapabilities, sets.Set.isNil]
    | mk O =>
      rw [GetImplicitlyEnabledCapabilities_mk]
      simp [sets.Set.isNil, sets.Set.members_Difference, sets.Set.members_mk]
  · cases others with
    | nil => simp [GetImplicitlyEnabledCapabilities, sets.Set.isNil]
    | mk O =>
      rw [GetImplicitlyEnabledCapabilities_mk]
      simp [sets.Set.isNil, sets.Set.members_Difference, sets.Set.members_mk,
        sets.Set.members_nil]

/-- The scenario of `TestSetCapabilities` for claim C9: of the others
{MachineAPI, cap1, cap-implicitly} the first two are enabled, the third is implicitly enabled,
and no gap is left. -/
theorem SetCapabilities_covers_others_witness :
    ∃ r, SetCapabilities testCatalog "vCurrent"
        (some (configWith "v4.11" (some ["cap1", "cap2", "cap3"])))
        (sets.Set.New ["MachineAPI", "cap1", "cap-implicitly"]) = some r ∧
      r.Enabled.Has "MachineAPI" = true ∧ r.Enabled.Has "cap1" = true ∧
      (r.Enabled.Has "cap-implicitly" = true ∨ r.ImplicitlyEnabled.Has "cap-implicitly" = true) ∧
      GetImplicitlyEnabledCapabilities (sets.Set.New ["MachineAPI", "cap1", "cap-implicitly"])
        (sets.Set.mk ∅) r = sets.Set.mk ∅ := by
  obtain ⟨r, hr, -, hcov, hgap, -⟩ :=
    SetCapabilities_covers_others testCatalog "vCurrent"
      (configWith "v4.11" (some ["cap1", "cap2", "cap3"]))
      (sets.Set.New ["MachineAPI", "cap1", "cap-implicitly"])
  have hval : SetCapabilities testCatalog "vCurrent"
      (some (configWith "v4.11" (some ["cap1", "cap2", "cap3"])))
      (sets.Set.New ["MachineAPI", "cap1", "cap-implicitly"]) =
      some
        { Known := sets.Set.New ["baremetal", "marketplace", "openshift-samples", "MachineAPI",
            "Console", "Insights", "Storage"]
          Enabled := sets.Set.New ["baremetal", "marketplace", "openshift-samples",
            "MachineAPI", "cap1", "cap2", "cap3"]
          ImplicitlyEnabled := sets.Set.New ["cap-implicitly"] } := by decide
  refine ⟨r, hr, ?_, ?_, hcov "cap-implicitly" (by decide), hgap⟩
  · rw [hval] at hr
    cases hr
    decide
  · rw [hval] at hr
    cases hr
    decide

/-- Claim C10: for every catalog, `SetCapabilities` returns `Known` as the union of the member
lists of all catalog entries: a capability is known exactly when some entry lists it. The value
is the same for any two configs (any baseline key, any additional list, nil `Capabilities`),
any two current keys and any two `others`. -/
theorem SetCapabilities_known_eq (catalog : Catalog)
    (current1 current2 : ClusterVersionCapabilitySet) (config1 config2 : ClusterVersion)
    (others1 others2 : sets.Set) :
    ∃ r1 r2, SetCapabilities catalog current1 (some config1) others1 = some r1 ∧
      SetCapabilities catalog current2 (some config2) others2 = some r2 ∧
      r1.Known = sets.Set.mk catalog.allMembers ∧
      (∀ c : ClusterVersionCapability,
        r1.Known.Has c = true ↔ ∃ e, e ∈ catalog ∧ c ∈ e.2.elems) ∧
      r2.Known = r1.Known := by
  obtain ⟨en1, hr1⟩ := SetCapabilities_some catalog current1 config1 others1
  obtain ⟨en2, hr2⟩ := SetCapabilities_some catalog current2 config2 others2
  refine ⟨_, _, hr1, hr2, rfl, ?_, rfl⟩
  intro c
  simp only [sets.Set.has_iff_mem, sets.Set.members_mk]
  exact Catalog.mem_allMembers catalog c

/-! ## The classes of a capability -/

theorem count_classes_narrow (k e i : Bool) (h : (e && i) = false) :
    List.count true [!k && !e && !i, e, i, k && !e && !i] = 1 := by
  revert k e i
  decide

theorem count_classes (k e i : Bool) (h : (e && i) = false) :
    List.count true [!k, e, i, k && !e && !i] = if k || !(e || i) then 1 else 2 := by
  revert k e i
  decide

theorem has_enabled_and_implicit (others : sets.Set) (en : Finset ClusterVersionCapability)
    (c : ClusterVersionCapability) :
    ((sets.Set.mk en).Has c && (others.Difference (sets.Set.mk en)).Has c) = false := by
  cases h : (sets.Set.mk en).Has c with
  | false => rfl
  | true =>
    have hmem : c ∈ en := (sets.Set.has_iff_mem _ c).mp h
    simp [sets.Set.Has, sets.Set.members_Difference, sets.Set.members_mk, hmem]

/-- Claim C11, as amended: in the state `SetCapabilities` returns, every capability is in exactly
one of the classes explicitly enabled, implicitly enabled, disabled (known and in neither
set), and unknown and in neither set. Of the four classes as the specification words them the
capability is in exactly one when it is known or in neither set, and in two, unknown and an
enabled class, when it is not known and in `Enabled` or `ImplicitlyEnabled`. -/
theorem SetCapabilities_classification (catalog : Catalog)
    (current : ClusterVersionCapabilitySet) (config : ClusterVersion) (others : sets.Set)
    (c : ClusterVersionCapability) :
    ∃ r, SetCapabilities catalog current (some config) others = some r ∧
      (classificationNarrow r c).count true = 1 ∧
      (classification r c).count true =
        (if r.Known.Has c || !(r.Enabled.Has c || r.ImplicitlyEnabled.Has c) then 1
          else 2) := by
  obtain ⟨en, hr⟩ := SetCapabilities_some catalog current config others
  exact ⟨_, hr, count_classes_narrow _ _ _ (has_enabled_and_implicit others en c),
    count_classes _ _ _ (has_enabled_and_implicit others en c)⟩

/-- The counterexample to claim C11 as stated: with baseline `v4.11` and additional {capX}, the
capability capX is not known and is explicitly enabled, so it is in two of the four classes. -/
theorem SetCapabilities_classification_counterexample :
    ∃ r, SetCapabilities scenarioCatalog "vCurrent"
        (some (configWith "v4.11" (some ["capX"]))) sets.Set.nil = some r ∧
      r.Known.Has "capX" = false ∧ r.Enabled.Has "capX" = true ∧
      (classification r "capX").count true = 2 ∧
      (classification r "capX").count true ≠ 1 := by
  have hval : SetCapabilities scenarioCatalog "vCurrent"
      (some (configWith "v4.11" (some ["capX"]))) sets.Set.nil =
      some
        { Known := sets.Set.New ["baremetal", "marketplace", "Console"]
          Enabled := sets.Set.New ["baremetal", "marketplace", "capX"]
          ImplicitlyEnabled := sets.Set.mk ∅ } := by decide
  exact ⟨_, hval, by decide, by decide, by decide, by decide⟩

/-! ## Nil inputs and totality -/

/-- Claim C12: a nil `others` is resolved as the empty set: the result for the nil set is the
result for the empty present set, and its `ImplicitlyEnabled` is the present set without
members; a nil `AdditionalEnabledCapabilities` gives the result of the empty list. -/
theorem SetCapabilities_nil_as_empty (catalog : Catalog)
    (current k : ClusterVersionCapabilitySet) (config : ClusterVersion) (others : sets.Set) :
    SetCapabilities catalog current (some config) sets.Set.nil =
        SetCapabilities catalog current (some config) (sets.Set.mk ∅) ∧
      (∃ r, SetCapabilities catalog current (some config) sets.Set.nil = some r ∧
        r.ImplicitlyEnabled = sets.Set.mk ∅ ∧ r.ImplicitlyEnabled.members = ∅) ∧
      SetCapabilities catalog current (some (configWith k none)) others =
        SetCapabilities catalog current (some (configWith k (some []))) others := by
  have hn : ∀ en : Finset ClusterVersionCapability,
      sets.Set.nil.Difference (sets.Set.mk en) = sets.Set.mk ∅ := by
    intro en
    simp [sets.Set.difference_eq, sets.Set.members_nil]
  have he : ∀ en : Finset ClusterVersionCapability,
      (sets.Set.mk ∅).Difference (sets.Set.mk en) = sets.Set.mk ∅ := by
    intro en
    simp [sets.Set.difference_eq, sets.Set.members_mk]
  refine ⟨?_, ?_, ?_⟩
  · rcases config_cases config with h | ⟨key, additional, h⟩
    · subst h
      rw [SetCapabilities_absent, SetCapabilities_absent, hn, he]
    · subst h
      rw [SetCapabilities_present, SetCapabilities_present, hn, he]
  · obtain ⟨en, hr⟩ := SetCapabilities_some catalog current config sets.Set.nil
    exact ⟨_, hr, hn en, by rw [hn en]; rfl⟩
  · rw [SetCapabilities_present, SetCapabilities_present]
    rfl

/-- Claim C13: both operations are total. For a non-nil config pointer, one with a nil
`Spec.Capabilities` included, any catalog, key and `others` (nil included), `SetCapabilities`
returns a value, no panic (the nil config pointer, which the claim leaves out, is the one input
that panics); `GetImplicitlyEnabledCapabilities` returns a value for all inputs,
and with nil `enabledCapabilities` and the zero `ClusterCapabilities` that value is nil for nil
`capabilities` and the present set of the members of `capabilities` otherwise. -/
theorem SetCapabilities_total (catalog : Catalog) (current : ClusterVersionCapabilitySet)
    (config : ClusterVersion) (others capabilities enabledCapabilities : sets.Set)
    (clusterCapabilities : ClusterCapabilities) :
    (SetCapabilities catalog current (some config) others).isSome = true ∧
      (SetCapabilities catalog current (some configNil) others).isSome = true ∧
      (SetCapabilities catalog current (some config) sets.Set.nil).isSome = true ∧
      SetCapabilities catalog current none others = none ∧
      (∃ s, GetImplicitlyEnabledCapabilities capabilities enabledCapabilities
        clusterCapabilities = s) ∧
      GetImplicitlyEnabledCapabilities capabilities sets.Set.nil
          { Known := sets.Set.nil, Enabled := sets.Set.nil, ImplicitlyEnabled := sets.Set.nil } =
        (if capabilities.isNil then sets.Set.nil else sets.Set.mk capabilities.members) := by
  refine ⟨?_, ?_, ?_, ?_, ⟨_, rfl⟩, ?_⟩
  · obtain ⟨en, hr⟩ := SetCapabilities_some catalog current config others
    rw [hr]
    rfl
  · rw [SetCapabilities_absent]
    rfl
  · obtain ⟨en, hr⟩ := SetCapabilities_some catalog current config sets.Set.nil
    rw [hr]
    rfl
  · simp [SetCapabilities, sets.Set.New, insertAll_mk]
  · cases capabilities with
    | nil => simp [GetImplicitlyEnabledCapabilities, sets.Set.isNil]
    | mk A =>
      rw [GetImplicitlyEnabledCapabilities_mk]
      simp [sets.Set.isNil, sets.Set.members_nil, sets.Set.members_mk]

/-! ## Algebra of the gaps -/

theorem GetImplicitlyEnabledCapabilities_mk_union (A : Finset ClusterVersionCapability)
    (enabledCapabilities : sets.Set) (clusterCapabilities : ClusterCapabilities) :
    GetImplicitlyEnabledCapabilities (sets.Set.mk A) enabledCapabilities clusterCapabilities =
      sets.Set.mk (A \ (enabledCapabilities.members ∪ clusterCapabilities.Enabled.members ∪
        clusterCapabilities.ImplicitlyEnabled.members)) := by
  rw [GetImplicitlyEnabledCapabilities_mk]
  congr 1
  ext c
  simp only [Finset.mem_sdiff, Finset.mem_union]
  tauto

/-- Claim C14: the order of the three subtractions does not matter. For a present
`capabilities` with key set `A` and sets `X`, `E`, `I`, the function returns
`A − (X ∪ E ∪ I)` whichever of the three sets is passed as `enabledCapabilities`, as `Enabled`
and as `ImplicitlyEnabled`: all six orders give the same set, in particular with
`enabledCapabilities` and `Enabled` swapped. -/
theorem GetImplicitlyEnabledCapabilities_order_irrelevant
    (A : Finset ClusterVersionCapability) (X E I K : sets.Set) :
    GetImplicitlyEnabledCapabilities (sets.Set.mk A) X
        { Known := K, Enabled := E, ImplicitlyEnabled := I } =
        sets.Set.mk (A \ (X.members ∪ E.members ∪ I.members)) ∧
      GetImplicitlyEnabledCapabilities (sets.Set.mk A) X
        { Known := K, Enabled := I, ImplicitlyEnabled := E } =
        sets.Set.mk (A \ (X.members ∪ E.members ∪ I.members)) ∧
      GetImplicitlyEnabledCapabilities (sets.Set.mk A) E
        { Known := K, Enabled := X, ImplicitlyEnabled := I } =
        sets.Set.mk (A \ (X.members ∪ E.members ∪ I.members)) ∧
      GetImplicitlyEnabledCapabilities (sets.Set.mk A) E
        { Known := K, Enabled := I, ImplicitlyEnabled := X } =
        sets.Set.mk (A \ (X.members ∪ E.members ∪ I.members)) ∧
      GetImplicitlyEnabledCapabilities (sets.Set.mk A) I
        { Known := K, Enabled := X, ImplicitlyEnabled := E } =
        sets.Set.mk (A \ (X.members ∪ E.members ∪ I.members)) ∧
      GetImplicitlyEnabledCapabilities (sets.Set.mk A) I
        { Known := K, Enabled := E, ImplicitlyEnabled := X } =
        sets.Set.mk (A \ (X.members ∪ E.members ∪ I.members)) ∧
      GetImplicitlyEnabledCapabilities (sets.Set.mk A) E
        { Known := K, Enabled := X, ImplicitlyEnabled := I } =
        GetImplicitlyEnabledCapabilities (sets.Set.mk A) X
          { Known := K, Enabled := E, ImplicitlyEnabled := I } := by
  have key : ∀ P Q R : sets.Set,
      GetImplicitlyEnabledCapabilities (sets.Set.mk A) P
        { Known := K, Enabled := Q, ImplicitlyEnabled := R } =
      sets.Set.mk (A \ (P.members ∪ Q.members ∪ R.members)) :=
    fun P Q R => GetImplicitlyEnabledCapabilities_mk_union A P _
  have ext3 : ∀ P Q R : sets.Set, P.members ∪ Q.members ∪ R.members =
      X.members ∪ E.members ∪ I.members →
      GetImplicitlyEnabledCapabilities (sets.Set.mk A) P
        { Known := K, Enabled := Q, ImplicitlyEnabled := R } =
      sets.Set.mk (A \ (X.members ∪ E.members ∪ I.members)) := by
    intro P Q R h
    rw [key P Q R, h]
  have hXIE : X.members ∪ I.members ∪ E.members = X.members ∪ E.members ∪ I.members := by
    ext c
    simp only [Finset.mem_union]
    tauto
  have hEXI : E.members ∪ X.members ∪ I.members = X.members ∪ E.members ∪ I.members := by
    ext c
    simp only [Finset.mem_union]
    tauto
  have hEIX : E.members ∪ I.members ∪ X.members = X.members ∪ E.members ∪ I.members := by
    ext c
    simp only [Finset.mem_union]
    tauto
  have hIXE : I.members ∪ X.members ∪ E.members = X.members ∪ E.members ∪ I.members := by
    ext c
    simp only [Finset.mem_union]
    tauto
  have hIEX : I.members ∪ E.members ∪ X.members = X.members ∪ E.members ∪ I.members := by
    ext c
    simp only [Finset.mem_union]
    tauto
  refine ⟨key X E I, ext3 X I E hXIE, ext3 E X I hEXI, ext3 E I X hEIX, ext3 I X E hIXE,
    ext3 I E X hIEX, ?_⟩
  rw [ext3 E X I hEXI, key X E I]

/-- Claim C17: acting on the gaps closes them. For a present `capabilities` with key set `A`,
let `g` be the gaps found against a state `s`, and replace `ImplicitlyEnabled` of `s` by its
union with `g`: against the new state there is no gap left (the empty present set); `g`
shares no member with `Enabled`, and if `Enabled` and `ImplicitlyEnabled` of `s` are disjoint,
so are those of the new state. -/
theorem GetImplicitlyEnabledCapabilities_gaps_closed (A : Finset ClusterVersionCapability)
    (enabledCapabilities : sets.Set) (s : ClusterCapabilities) :
    GetImplicitlyEnabledCapabilities (sets.Set.mk A) enabledCapabilities
        { Known := s.Known
          Enabled := s.Enabled
          ImplicitlyEnabled := s.ImplicitlyEnabled.Union
            (GetImplicitlyEnabledCapabilities (sets.Set.mk A) enabledCapabilities s) } =
        sets.Set.mk ∅ ∧
      Disjoint s.Enabled.members
        (GetImplicitlyEnabledCapabilities (sets.Set.mk A) enabledCapabilities s).members ∧
      (Disjoint s.Enabled.members s.ImplicitlyEnabled.members →
        Disjoint s.Enabled.members
          (s.ImplicitlyEnabled.Union
            (GetImplicitlyEnabledCapabilities (sets.Set.mk A) enabledCapabilities s)).members) := by
  have hg : Disjoint s.Enabled.members
      (GetImplicitlyEnabledCapabilities (sets.Set.mk A) enabledCapabilities s).members := by
    rw [GetImplicitlyEnabledCapabilities_mk, sets.Set.members_mk, Finset.disjoint_left]
    intro c hc hmem
    simp only [Finset.mem_sdiff] at hmem
    exact hmem.1.2 hc
  refine ⟨?_, hg, ?_⟩
  · rw [GetImplicitlyEnabledCapabilities_mk_union, GetImplicitlyEnabledCapabilities_mk_union]
    congr 1
    ext c
    simp only [sets.Set.Union, sets.Set.members_mk, Finset.mem_sdiff, Finset.mem_union,
      Finset.not_mem_empty, iff_false]
    tauto
  · intro hdisj
    simp only [sets.Set.Union, sets.Set.members_mk]
    exact Finset.disjoint_union_right.mpr ⟨hdisj, hg⟩

/-- The test case "implicitly enable capability" for claim C17: the gap of {cap2} against
`Enabled` = {cap1} is {cap2}; once cap2 is implicitly enabled no gap is left, and the two sets
of the new state, {cap1} and {cap2}, are disjoint. -/
theorem GetImplicitlyEnabledCapabilities_gaps_closed_witness :
    GetImplicitlyEnabledCapabilities (sets.Set.New ["cap2"]) (sets.Set.New ["cap1", "cap3"])
        { Known := sets.Set.nil, Enabled := sets.Set.New ["cap1"],
          ImplicitlyEnabled := sets.Set.nil } = sets.Set.New ["cap2"] ∧
      Disjoint (sets.Set.New ["cap1"]).members sets.Set.nil.members ∧
      Disjoint (sets.Set.New ["cap1"]).members
        (sets.Set.nil.Union
          (GetImplicitlyEnabledCapabilities (sets.Set.New ["cap2"])
            (sets.Set.New ["cap1", "cap3"])
            { Known := sets.Set.nil, Enabled := sets.Set.New ["cap1"],
              ImplicitlyEnabled := sets.Set.nil })).members := by
  have hdisj : Disjoint (sets.Set.New ["cap1"]).members sets.Set.nil.members := by
    simp [sets.Set.members_nil]
  exact ⟨by decide, hdisj,
    (GetImplicitlyEnabledCapabilities_gaps_closed (["cap2"].toFinset)
      (sets.Set.New ["cap1", "cap3"])
      { Known := sets.Set.nil, Enabled := sets.Set.New ["cap1"],
        ImplicitlyEnabled := sets.Set.nil }).2.2 hdisj⟩

/-! ## Bounds on the enabled sets -/

theorem Catalog.index_subset_allMembers (catalog : Catalog) (key : ClusterVersionCapabilitySet)
    (c : ClusterVersionCapability) (h : c ∈ (catalog.index key).elems) :
    c ∈ catalog.allMembers := by
  induction catalog with
  | nil => simp [Catalog.index, Slice.elems] at h
  | cons e rest ih =>
    obtain ⟨k, v⟩ := e
    simp only [Catalog.index] at h
    simp only [Catalog.allMembers, Finset.mem_union, List.mem_toFinset]
    by_cases hk : k = key
    · rw [if_pos hk] at h
      exact Or.inl h
    · rw [if_neg hk] at h
      exact Or.inr (ih h)

/-- Claim C18: every capability of the `Enabled` set `SetCapabilities` returns is known or is
one of the additional capabilities of the config, so `Enabled ⊆ Known` when every additional
capability is known; `ImplicitlyEnabled` is a subset of `others`, and it can hold a capability
that is not known (cap-implicitly in the scenario of `TestSetCapabilities`). -/
theorem SetCapabilities_enabled_subset_known_union_additional (catalog : Catalog)
    (current : ClusterVersionCapabilitySet) (config : ClusterVersion) (others : sets.Set) :
    (∃ r, SetCapabilities catalog current (some config) others = some r ∧
        r.Enabled.members ⊆ r.Known.members ∪ config.additional.toFinset ∧
        (config.additional.toFinset ⊆ r.Known.members → r.Enabled.members ⊆ r.Known.members) ∧
        r.ImplicitlyEnabled.members ⊆ others.members) ∧
      (∃ r, SetCapabilities testCatalog "vCurrent"
          (some (configWith "v4.11" (some ["cap1", "cap2", "cap3"])))
          (sets.Set.New ["MachineAPI", "cap1", "cap-implicitly"]) = some r ∧
        r.ImplicitlyEnabled.Has "cap-implicitly" = true ∧
        r.Known.Has "cap-implicitly" = false) := by
  constructor
  · have hbound : ∀ (key : ClusterVersionCapabilitySet) (l : List ClusterVersionCapability),
        (catalog.index key).elems.toFinset ∪ l.toFinset ⊆ catalog.allMembers ∪ l.toFinset := by
      intro key l c hc
      simp only [Finset.mem_union, List.mem_toFinset] at hc ⊢
      rcases hc with h | h
      · exact Or.inl (Catalog.index_subset_allMembers catalog key c h)
      · exact Or.inr h
    have himp : ∀ en : Finset ClusterVersionCapability,
        (others.Difference (sets.Set.mk en)).members ⊆ others.members := by
      intro en
      rw [sets.Set.members_Difference]
      exact Finset.sdiff_subset
    rcases config_cases config with h | ⟨key, additional, h⟩
    · subst h
      refine ⟨_, SetCapabilities_absent catalog current others, ?_, ?_, himp _⟩
      · simpa [ClusterVersion.additional, configNil, sets.Set.members_mk] using
          hbound current []
      · intro _
        simpa [sets.Set.members_mk] using hbound current []
    · subst h
      have hb := hbound (if key ≠ "" then key else current) additional.elems
      refine ⟨_, SetCapabilities_present catalog current key additional others, ?_, ?_, himp _⟩
      · simpa only [ClusterVersion.additional, configWith, sets.Set.members_mk] using hb
      · intro hadd
        simp only [ClusterVersion.additional, configWith, sets.Set.members_mk] at hadd ⊢
        exact hb.trans (Finset.union_subset (Finset.Subset.refl _) hadd)
  · have hval : SetCapabilities testCatalog "vCurrent"
        (some (configWith "v4.11" (some ["cap1", "cap2", "cap3"])))
        (sets.Set.New ["MachineAPI", "cap1", "cap-implicitly"]) =
        some
          { Known := sets.Set.New ["baremetal", "marketplace", "openshift-samples",
              "MachineAPI", "Console", "Insights", "Storage"]
            Enabled := sets.Set.New ["baremetal", "marketplace", "openshift-samples",
              "MachineAPI", "cap1", "cap2", "cap3"]
            ImplicitlyEnabled := sets.Set.New ["cap-implicitly"] } := by decide
    exact ⟨_, hval, by decide, by decide⟩

/-- A config whose additional capabilities are all known, for claim C18: baseline `None` with
additional {baremetal} gives `Enabled` = {baremetal}, a subset of `Known`. -/
theorem SetCapabilities_enabled_subset_known_union_additional_witness :
    ∃ r, SetCapabilities scenarioCatalog "vCurrent"
        (some (configWith "None" (some ["baremetal"]))) sets.Set.nil = some r ∧
      (configWith "None" (some ["baremetal"])).additional.toFinset ⊆ r.Known.members ∧
      r.Enabled.members ⊆ r.Known.members := by
  obtain ⟨r, hr, -, hsub, -⟩ :=
    (SetCapabilities_enabled_subset_known_union_additional scenarioCatalog "vCurrent"
      (configWith "None" (some ["baremetal"])) sets.Set.nil).1
  have hval : SetCapabilities scenarioCatalog "vCurrent"
      (some (configWith "None" (some ["baremetal"]))) sets.Set.nil =
      some
        { Known := sets.Set.New ["baremetal", "marketplace", "Console"]
          Enabled := sets.Set.New ["baremetal"]
          ImplicitlyEnabled := sets.Set.mk ∅ } := by decide
  have hadd : (configWith "None" (some ["baremetal"])).additional.toFinset ⊆
      r.Known.members := by
    rw [hval] at hr
    cases hr
    decide
  exact ⟨r, hr, hadd, hsub hadd⟩

/-! ## Independence of the iteration order -/

theorem Catalog.index_eq_of_mem (catalog : Catalog) (key : ClusterVersionCapabilitySet)
    (v : Slice) (hnodup : (catalog.map Prod.fst).Nodup) (hmem : (key, v) ∈ catalog) :
    catalog.index key = v := by
  induction catalog with
  | nil => cases hmem
  | cons e rest ih =>
    obtain ⟨k, w⟩ := e
    simp only [List.map_cons, List.nodup_cons] at hnodup
    simp only [Catalog.index]
    rcases List.mem_cons.mp hmem with h | h
    · cases h
      simp
    · have hne : ¬ k = key := by
        intro hk
        apply hnodup.1
        rw [hk]
        exact List.mem_map.mpr ⟨(key, v), h, rfl⟩
      rw [if_neg hne]
      exact ih hnodup.2 h

theorem Catalog.index_perm (catalog1 catalog2 : Catalog) (key : ClusterVersionCapabilitySet)
    (hperm : catalog1.Perm catalog2) (hnodup : (catalog1.map Prod.fst).Nodup) :
    catalog1.index key = catalog2.index key := by
  have hnodup2 : (catalog2.map Prod.fst).Nodup := (hperm.map Prod.fst).nodup_iff.mp hnodup
  by_cases hkey : key ∈ catalog1.map Prod.fst
  · obtain ⟨e, he, hfst⟩ := List.mem_map.mp hkey
    obtain ⟨k, v⟩ := e
    simp only at hfst
    subst hfst
    rw [Catalog.index_eq_of_mem catalog1 k v hnodup he,
      Catalog.index_eq_of_mem catalog2 k v hnodup2 (hperm.mem_iff.mp he)]
  · have hkey2 : key ∉ catalog2.map Prod.fst := fun h =>
      hkey ((hperm.map Prod.fst).mem_iff.mpr h)
    rw [Catalog.index_of_not_key catalog1 key hkey, Catalog.index_of_not_key catalog2 key hkey2]

theorem Catalog.allMembers_perm (catalog1 catalog2 : Catalog)
    (hperm : catalog1.Perm catalog2) : catalog1.allMembers = catalog2.allMembers := by
  ext c
  rw [Catalog.mem_allMembers, Catalog.mem_allMembers]
  constructor
  · rintro ⟨e, he, hc⟩
    exact ⟨e, hperm.mem_iff.mp he, hc⟩
  · rintro ⟨e, he, hc⟩
    exact ⟨e, hperm.mem_iff.mpr he, hc⟩

/-- Claim C15: `SetCapabilities` is deterministic. The catalog is a Go map, visited in an
unspecified order: any two orders of the same entries (keys distinct), and any two additional
lists with the same members, in whatever order and multiplicity, give the same `Known`,
`Enabled` and `ImplicitlyEnabled`, for a config with and without `Spec.Capabilities`; and the
function returns. -/
theorem SetCapabilities_deterministic (catalog1 catalog2 : Catalog)
    (current k : ClusterVersionCapabilitySet) (additional1 additional2 : Slice)
    (others : sets.Set) (hperm : catalog1.Perm catalog2)
    (hnodup : (catalog1.map Prod.fst).Nodup)
    (hadd : additional1.elems.toFinset = additional2.elems.toFinset) :
    SetCapabilities catalog1 current (some (configWith k additional1)) others =
        SetCapabilities catalog2 current (some (configWith k additional2)) others ∧
      SetCapabilities catalog1 current (some configNil) others =
        SetCapabilities catalog2 current (some configNil) others ∧
      (SetCapabilities catalog1 current (some (configWith k additional1)) others).isSome = true ∧
      (SetCapabilities catalog1 current (some configNil) others).isSome = true := by
  refine ⟨?_, ?_, ?_, ?_⟩
  · rw [SetCapabilities_present, SetCapabilities_present,
      Catalog.allMembers_perm catalog1 catalog2 hperm,
      Catalog.index_perm catalog1 catalog2 _ hperm hnodup, hadd]
  · rw [SetCapabilities_absent, SetCapabilities_absent,
      Catalog.allMembers_perm catalog1 catalog2 hperm,
      Catalog.index_perm catalog1 catalog2 _ hperm hnodup]
  · rw [SetCapabilities_present]
    rfl
  · rw [SetCapabilities_absent]
    rfl

/-- The scenario catalog visited in its order and in the reverse order, with the additional
lists capX, capY, capX and capY, capX, for claim C15: the two results are equal. -/
theorem SetCapabilities_deterministic_witness :
    scenarioCatalog.Perm scenarioCatalog.reverse ∧
      (scenarioCatalog.map Prod.fst).Nodup ∧
      Slice.elems (some ["capX", "capY", "capX"]) ≠ Slice.elems (some ["capY", "capX"]) ∧
      SetCapabilities scenarioCatalog "vCurrent"
          (some (configWith "v4.11" (some ["capX", "capY", "capX"]))) sets.Set.nil =
        SetCapabilities scenarioCatalog.reverse "vCurrent"
          (some (configWith "v4.11" (some ["capY", "capX"]))) sets.Set.nil := by
  have hperm : scenarioCatalog.Perm scenarioCatalog.reverse :=
    (List.reverse_perm scenarioCatalog).symm
  have hnodup : (scenarioCatalog.map Prod.fst).Nodup := by decide
  have hadd : (Slice.elems (some ["capX", "capY", "capX"])).toFinset =
      (Slice.elems (some ["capY", "capX"])).toFinset := by
    simp only [Slice.elems]
    ext c
    simp
  exact ⟨hperm, hnodup, by decide,
    (SetCapabilities_deterministic scenarioCatalog scenarioCatalog.reverse "vCurrent" "v4.11"
      (some ["capX", "capY", "capX"]) (some ["capY", "capX"]) sets.Set.nil hperm hnodup
      hadd).1⟩

/-! ## The memory: which objects a call writes -/

theorem Store.value_append (st fresh : Store) (s : Ref) (h : st.allocated s = true) :
    (st ++ fresh).value s = st.value s := by
  cases s with
  | none => rfl
  | some a =>
    have ha : a < st.length := by simpa [Store.allocated] using h
    simp only [Store.value]
    rw [List.getD_append st fresh ∅ a ha]

theorem Store.value_last (st : Store) (m : Finset ClusterVersionCapability) :
    (st ++ [m]).value (some st.length) = sets.Set.mk m := by
  simp only [Store.value]
  rw [List.getD_append_right st [m] ∅ st.length (Nat.le_refl _)]
  simp

theorem Store.allocated_append (st fresh : Store) (s : Ref) (h : st.allocated s = true) :
    (st ++ fresh).allocated s = true := by
  cases s with
  | none => rfl
  | some a =>
    have ha : a < st.length := by simpa [Store.allocated] using h
    simp only [Store.allocated, List.length_append, decide_eq_true_eq]
    omega

theorem Store.difference_alloc (st : Store) (s1 s2 : Ref) :
    st.Difference s1 s2 =
      (some st.length, st ++ [((st.value s1).Difference (st.value s2)).members]) := rfl

theorem Store.insert_last (st : Store) (m : Finset ClusterVersionCapability)
    (items : List ClusterVersionCapability) :
    Store.Insert (st ++ [m]) (some st.length) items = some (st ++ [m ∪ items.toFinset]) := by
  cases items with
  | nil => simp [Store.Insert]
  | cons x l =>
    simp only [Store.Insert]
    rw [List.getD_append_right st [m] ∅ st.length (Nat.le_refl _),
      List.set_append_right st.length _ (Nat.le_refl _)]
    simp

theorem Store.state_fresh (st : Store) (a b c : Finset ClusterVersionCapability) :
    (st ++ [a, b, c]).state
        { Known := some st.length, Enabled := some (st.length + 1),
          ImplicitlyEnabled := some (st.length + 2) } =
      { Known := sets.Set.mk a, Enabled := sets.Set.mk b, ImplicitlyEnabled := sets.Set.mk c } := by
  simp only [Store.state, Store.value]
  rw [List.getD_append_right st _ ∅ st.length (Nat.le_refl _),
    List.getD_append_right st _ ∅ (st.length + 1) (Nat.le_add_right _ _),
    List.getD_append_right st _ ∅ (st.length + 2) (Nat.le_add_right _ _)]
  simp

theorem Store.state_append (st fresh : Store) (r : ClusterCapabilitiesRefs)
    (hE : st.allocated r.Enabled = true) (hI : st.allocated r.ImplicitlyEnabled = true) :
    ((st ++ fresh).state r).Enabled = (st.state r).Enabled ∧
      ((st ++ fresh).state r).ImplicitlyEnabled = (st.state r).ImplicitlyEnabled :=
  ⟨Store.value_append st fresh r.Enabled hE, Store.value_append st fresh r.ImplicitlyEnabled hI⟩

theorem index_catalogAt (arrays : List (List ClusterVersionCapability))
    (entries : List (ClusterVersionCapabilitySet × SliceRef))
    (key : ClusterVersionCapabilitySet) :
    (catalogAt arrays entries).index key = sliceAt arrays (indexRef entries key) := by
  induction entries with
  | nil => rfl
  | cons e rest ih =>
    obtain ⟨k, v⟩ := e
    simp only [catalogAt, Catalog.index, indexRef]
    by_cases hk : k = key
    · rw [if_pos hk, if_pos hk]
    · rw [if_neg hk, if_neg hk]
      exact ih

theorem insertAllInMemory_last (st : Store) (m : Finset ClusterVersionCapability)
    (arrays : List (List ClusterVersionCapability))
    (catalog entries : List (ClusterVersionCapabilitySet × SliceRef)) :
    insertAllInMemory
        { maps := st ++ [m], arrays := arrays, ClusterVersionCapabilitySets := catalog }
        (some st.length) entries =
      some { maps := st ++ [m ∪ (catalogAt arrays entries).allMembers], arrays := arrays,
             ClusterVersionCapabilitySets := catalog } := by
  induction entries generalizing m with
  | nil => simp [insertAllInMemory, catalogAt, Catalog.allMembers]
  | cons e rest ih =>
    obtain ⟨k, v⟩ := e
    simp [insertAllInMemory, Memory.Insert, Memory.slice, Store.insert_last, ih, catalogAt,
      Catalog.allMembers, Finset.union_assoc]

theorem SetCapabilitiesInMemory_present (current key : ClusterVersionCapabilitySet)
    (additional : SliceRef) (others : Ref) (mem : Memory) :
    SetCapabilitiesInMemory current (some ⟨⟨some ⟨key, additional⟩⟩⟩) others mem =
      some
        ({ Known := some mem.maps.length, Enabled := some (mem.maps.length + 1),
           ImplicitlyEnabled := some (mem.maps.length + 2) },
         { maps := mem.maps ++ [mem.catalog.allMembers,
             (mem.catalog.index (if key ≠ "" then key else current)).elems.toFinset ∪
               (mem.slice additional).elems.toFinset,
             (((mem.maps ++ [mem.catalog.allMembers,
                (mem.catalog.index (if key ≠ "" then key else current)).elems.toFinset ∪
                  (mem.slice additional).elems.toFinset]).value others).Difference
               (sets.Set.mk
                 ((mem.catalog.index (if key ≠ "" then key else current)).elems.toFinset ∪
                  (mem.slice additional).elems.toFinset))).members]
           arrays := mem.arrays
           ClusterVersionCapabilitySets := mem.ClusterVersionCapabilitySets }) := by
  obtain ⟨st, arrays, cat⟩ := mem
  have hnil : (sliceAt arrays none).elems = [] := rfl
  simp only [SetCapabilitiesInMemory, Memory.New, Store.New, Memory.slice, hnil]
  rw [insertAllInMemory_last]
  simp only [Memory.Insert, Memory.slice, Store.insert_last, Memory.Difference,
    Store.difference_alloc, Store.value_last, Memory.catalog, index_catalogAt]
  simp

theorem SetCapabilitiesInMemory_absent (current : ClusterVersionCapabilitySet) (others : Ref)
    (mem : Memory) :
    SetCapabilitiesInMemory current (some ⟨⟨none⟩⟩) others mem =
      some
        ({ Known := some mem.maps.length, Enabled := some (mem.maps.length + 1),
           ImplicitlyEnabled := some (mem.maps.length + 2) },
         { maps := mem.maps ++ [mem.catalog.allMembers,
             (mem.catalog.index current).elems.toFinset,
             (((mem.maps ++ [mem.catalog.allMembers,
                (mem.catalog.index current).elems.toFinset]).value others).Difference
               (sets.Set.mk (mem.catalog.index current).elems.toFinset)).members]
           arrays := mem.arrays
           ClusterVersionCapabilitySets := mem.ClusterVersionCapabilitySets }) := by
  obtain ⟨st, arrays, cat⟩ := mem
  have hnil : (sliceAt arrays none).elems = [] := rfl
  simp only [SetCapabilitiesInMemory, Memory.New, Store.New, Memory.slice, hnil]
  rw [insertAllInMemory_last]
  simp only [Memory.slice, Memory.Difference, Store.difference_alloc, Store.value_last,
    Memory.catalog, index_catalogAt]
  simp

/-- Over the memory, `SetCapabilities` appends three map objects and returns their addresses,
and leaves arrays and catalog as they are; read in the new memory the three objects are the
sets of `SetCapabilities` on the catalog and the config the memory holds. -/
theorem SetCapabilitiesInMemory_some (current : ClusterVersionCapabilitySet)
    (config : ClusterVersionRefs) (others : Ref) (mem : Memory)
    (hothers : mem.maps.allocated others = true) :
    ∃ fresh, SetCapabilitiesInMemory current (some config) others mem =
        some ({ Known := some mem.maps.length, Enabled := some (mem.maps.length + 1),
                ImplicitlyEnabled := some (mem.maps.length + 2) },
              { maps := mem.maps ++ fresh, arrays := mem.arrays,
                ClusterVersionCapabilitySets := mem.ClusterVersionCapabilitySets }) ∧
      SetCapabilities mem.catalog current (some (mem.config config))
          (mem.maps.value others) =
        some ((mem.maps ++ fresh).state
          { Known := some mem.maps.length, Enabled := some (mem.maps.length + 1),
            ImplicitlyEnabled := some (mem.maps.length + 2) }) := by
  obtain ⟨⟨caps⟩⟩ := config
  cases caps with
  | none =>
    refine ⟨_, SetCapabilitiesInMemory_absent current others mem, ?_⟩
    have hc : mem.config ⟨⟨none⟩⟩ = configNil := rfl
    rw [hc, SetCapabilities_absent, Store.state_fresh,
      Store.value_append mem.maps _ others hothers]
    rfl
  | some spec =>
    obtain ⟨key, additional⟩ := spec
    refine ⟨_, SetCapabilitiesInMemory_present current key additional others mem, ?_⟩
    have hc : mem.config ⟨⟨some ⟨key, additional⟩⟩⟩ =
        configWith key (mem.slice additional) := rfl
    rw [hc, SetCapabilities_present, Store.state_fresh,
      Store.value_append mem.maps _ others hothers]
    rfl

/-- Over the memory, `GetImplicitlyEnabledCapabilities` appends map objects (none for the nil
`capabilities`) and leaves arrays and catalog as they are; its result read in the new memory
is the set of `GetImplicitlyEnabledCapabilities`. -/
theorem GetImplicitlyEnabledCapabilitiesInMemory_eq (capabilities enabledCapabilities : Ref)
    (clusterCapabilities : ClusterCapabilitiesRefs) (mem : Memory)
    (hE : mem.maps.allocated clusterCapabilities.Enabled = true)
    (hI : mem.maps.allocated clusterCapabilities.ImplicitlyEnabled = true) :
    ∃ g fresh, GetImplicitlyEnabledCapabilitiesInMemory capabilities enabledCapabilities
        clusterCapabilities mem =
        (g, { maps := mem.maps ++ fresh, arrays := mem.arrays,
              ClusterVersionCapabilitySets := mem.ClusterVersionCapabilitySets }) ∧
      (mem.maps ++ fresh).value g =
        GetImplicitlyEnabledCapabilities (mem.maps.value capabilities)
          (mem.maps.value enabledCapabilities) (mem.maps.state clusterCapabilities) := by
  obtain ⟨st, arrays, cat⟩ := mem
  cases capabilities with
  | none =>
    refine ⟨none, [], by simp [GetImplicitlyEnabledCapabilitiesInMemory], ?_⟩
    simp [Store.value, GetImplicitlyEnabledCapabilities, sets.Set.isNil]
  | some a =>
    refine ⟨some (st.length + 2),
      [((st.value (some a)).Difference (st.value enabledCapabilities)).members,
       (((st.value (some a)).Difference (st.value enabledCapabilities)).Difference
          (st.value clusterCapabilities.Enabled)).members,
       ((((st.value (some a)).Difference (st.value enabledCapabilities)).Difference
          (st.value clusterCapabilities.Enabled)).Difference
          (st.value clusterCapabilities.ImplicitlyEnabled)).members], ?_, ?_⟩
    · simp only [GetImplicitlyEnabledCapabilitiesInMemory, Memory.Difference,
        Store.difference_alloc, Store.value_last,
        Store.value_append st _ clusterCapabilities.Enabled hE,
        Store.value_append (st ++ _) _ clusterCapabilities.ImplicitlyEnabled
          (Store.allocated_append st _ _ hI),
        Store.value_append st _ clusterCapabilities.ImplicitlyEnabled hI]
      simp
      exact ⟨rfl, rfl⟩
    · simp only [Store.value]
      rw [List.getD_append_right st _ ∅ (st.length + 2) (Nat.le_add_right _ _)]
      simp [GetImplicitlyEnabledCapabilities, sets.Set.isNil, Store.state, Store.value]
      rfl

/-- Claim C16: neither operation mutates an input container. With the map objects, the backing
arrays of the slices and the catalog in a memory, a call of `SetCapabilities` returns, and in
the memory after it the catalog has the keys and slices it had and every key's member list is
as it was, the config holds the additional list it held (no backing array is written), and
every map object allocated before the call, the one of `others` among them, has the keys it
had: the map objects after the call are those before it followed by new ones. `Known`,
`Enabled` and `ImplicitlyEnabled` are three of the new objects, so the additional capabilities
are inserted into a new `Enabled` object and not into a catalog entry, and they hold the sets
of `SetCapabilities`. A call of `GetImplicitlyEnabledCapabilities` likewise leaves the catalog,
the backing arrays and every earlier map object as they were, those of `capabilities`,
`enabledCapabilities`, `Enabled` and `ImplicitlyEnabled` among them. -/
theorem inputs_not_mutated (current : ClusterVersionCapabilitySet)
    (config : ClusterVersionRefs) (others capabilities enabledCapabilities : Ref)
    (clusterCapabilities : ClusterCapabilitiesRefs) (mem : Memory)
    (hothers : mem.maps.allocated others = true)
    (hcaps : mem.maps.allocated capabilities = true)
    (henabled : mem.maps.allocated enabledCapabilities = true)
    (hE : mem.maps.allocated clusterCapabilities.Enabled = true)
    (hI : mem.maps.allocated clusterCapabilities.ImplicitlyEnabled = true) :
    (∃ r mem1, SetCapabilitiesInMemory current (some config) others mem = some (r, mem1) ∧
        mem1.ClusterVersionCapabilitySets = mem.ClusterVersionCapabilitySets ∧
        mem1.arrays = mem.arrays ∧
        mem1.catalog = mem.catalog ∧
        (∀ key : ClusterVersionCapabilitySet, mem1.catalog.index key = mem.catalog.index key) ∧
        (∀ s : SliceRef, mem1.slice s = mem.slice s) ∧
        mem1.config config = mem.config config ∧
        (mem1.config config).additional = (mem.config config).additional ∧
        (∃ fresh, mem1.maps = mem.maps ++ fresh) ∧
        (∀ a, a < mem.maps.length → mem1.maps.getD a ∅ = mem.maps.getD a ∅) ∧
        mem1.maps.value others = mem.maps.value others ∧
        r = { Known := some mem.maps.length, Enabled := some (mem.maps.length + 1),
              ImplicitlyEnabled := some (mem.maps.length + 2) } ∧
        SetCapabilities mem.catalog current (some (mem.config config))
            (mem.maps.value others) = some (mem1.maps.state r)) ∧
      (∃ g mem1, GetImplicitlyEnabledCapabilitiesInMemory capabilities enabledCapabilities
            clusterCapabilities mem = (g, mem1) ∧
        mem1.ClusterVersionCapabilitySets = mem.ClusterVersionCapabilitySets ∧
        mem1.arrays = mem.arrays ∧
        mem1.catalog = mem.catalog ∧
        (∃ fresh, mem1.maps = mem.maps ++ fresh) ∧
        (∀ a, a < mem.maps.length → mem1.maps.getD a ∅ = mem.maps.getD a ∅) ∧
        mem1.maps.value capabilities = mem.maps.value capabilities ∧
        mem1.maps.value enabledCapabilities = mem.maps.value enabledCapabilities ∧
        (mem1.maps.state clusterCapabilities).Enabled =
          (mem.maps.state clusterCapabilities).Enabled ∧
        (mem1.maps.state clusterCapabilities).ImplicitlyEnabled =
          (mem.maps.state clusterCapabilities).ImplicitlyEnabled ∧
        mem1.maps.value g =
          GetImplicitlyEnabledCapabilities (mem.maps.value capabilities)
            (mem.maps.value enabledCapabilities) (mem.maps.state clusterCapabilities)) := by
  constructor
  · obtain ⟨fresh, hrun, hval⟩ := SetCapabilitiesInMemory_some current config others mem hothers
    exact ⟨_, _, hrun, rfl, rfl, rfl, fun _ => rfl, fun _ => rfl, rfl, rfl, ⟨fresh, rfl⟩,
      fun a ha => List.getD_append mem.maps fresh ∅ a ha,
      Store.value_append mem.maps fresh others hothers, rfl, hval⟩
  · obtain ⟨g, fresh, hrun, hval⟩ := GetImplicitlyEnabledCapabilitiesInMemory_eq capabilities
      enabledCapabilities clusterCapabilities mem hE hI
    exact ⟨g, _, hrun, rfl, rfl, rfl, ⟨fresh, rfl⟩,
      fun a ha => List.getD_append mem.maps fresh ∅ a ha,
      Store.value_append mem.maps fresh capabilities hcaps,
      Store.value_append mem.maps fresh enabledCapabilities henabled,
      (Store.state_append mem.maps fresh clusterCapabilities hE hI).1,
      (Store.state_append mem.maps fresh clusterCapabilities hE hI).2, hval⟩

/-- The scenario of `TestSetCapabilities` in a memory, for claim C16: the catalog of three
entries, the additional list cap1, cap2, cap3 and the map objects
{MachineAPI, cap1, cap-implicitly} (`others`, `capabilities`) and {cap1}
(`enabledCapabilities`, `Enabled`). After either call the catalog read from the memory is the
test catalog, the additional list is cap1, cap2, cap3 and the two map objects are as before;
`SetCapabilities` returns the three new objects at the addresses 2, 3 and 4. -/
theorem inputs_not_mutated_witness :
    testMemory.catalog = testCatalog ∧
      testMemory.slice (some 3) = some ["cap1", "cap2", "cap3"] ∧
      (∃ r mem1, SetCapabilitiesInMemory "vCurrent" (some ⟨⟨some ⟨"v4.11", some 3⟩⟩⟩)
            (some 0) testMemory = some (r, mem1) ∧
        r = { Known := some 2, Enabled := some 3, ImplicitlyEnabled := some 4 } ∧
        mem1.catalog = testCatalog ∧
        mem1.slice (some 3) = some ["cap1", "cap2", "cap3"] ∧
        mem1.maps.value (some 0) = sets.Set.New ["MachineAPI", "cap1", "cap-implicitly"] ∧
        mem1.maps.value (some 1) = sets.Set.New ["cap1"]) ∧
      (∃ g mem1, GetImplicitlyEnabledCapabilitiesInMemory (some 0) (some 1)
            { Known := none, Enabled := some 1, ImplicitlyEnabled := none } testMemory =
            (g, mem1) ∧
        mem1.catalog = testCatalog ∧
        mem1.slice (some 3) = some ["cap1", "cap2", "cap3"] ∧
        mem1.maps.value (some 0) = sets.Set.New ["MachineAPI", "cap1", "cap-implicitly"] ∧
        mem1.maps.value (some 1) = sets.Set.New ["cap1"]) := by
  have hcat : testMemory.catalog = testCatalog := by decide
  have hadd : testMemory.slice (some 3) = some ["cap1", "cap2", "cap3"] := by decide
  have h0 : testMemory.maps.value (some 0) =
      sets.Set.New ["MachineAPI", "cap1", "cap-implicitly"] := by decide
  have h1 : testMemory.maps.value (some 1) = sets.Set.New ["cap1"] := by decide
  have h := inputs_not_mutated "vCurrent" ⟨⟨some ⟨"v4.11", some 3⟩⟩⟩ (some 0) (some 0) (some 1)
    { Known := none, Enabled := some 1, ImplicitlyEnabled := none } testMemory
    (by decide) (by decide) (by decide) (by decide) (by decide)
  obtain ⟨⟨r, mem1, hrun1, -, -, hc1, -, hs1, -, -, -, -, ho1, hr1, -⟩,
    ⟨g, mem2, hrun2, -, harr2, hc2, -, -, hcap2, hen2, -⟩⟩ := h
  refine ⟨hcat, hadd, ⟨r, mem1, hrun1, hr1, hc1.trans hcat, (hs1 _).trans hadd,
    ho1.trans h0, ?_⟩, ⟨g, mem2, hrun2, hc2.trans hcat, ?_, hcap2.trans h0, hen2.trans h1⟩⟩
  · have hval : SetCapabilitiesInMemory "vCurrent" (some ⟨⟨some ⟨"v4.11", some 3⟩⟩⟩)
        (some 0) testMemory =
        some (⟨some 2, some 3, some 4⟩,
          ⟨testMemory.maps ++
            [["baremetal", "marketplace", "openshift-samples", "MachineAPI", "Console",
               "Insights", "Storage"].toFinset,
             ["baremetal", "marketplace", "openshift-samples", "MachineAPI", "cap1", "cap2",
               "cap3"].toFinset,
             ["cap-implicitly"].toFinset],
           testMemory.arrays, testMemory.ClusterVersionCapabilitySets⟩) := by decide
    rw [hval] at hrun1
    cases hrun1
    decide
  · simp only [Memory.slice, harr2]
    exact hadd

end capability
